import Mathlib

/-!
Verification of the sample cursor and seek engine of the mp4read package
(`src/mp4read.go`), as a shallow embedding in Lean.

Machine integers are modelled as follows: Go `uint32` fields carry `Nat`
values (`< 2^32` in every reachable state); Go `int`/`int64` values are
`Int` where they can go negative (decoding time, data offsets, composition
offsets, timestamps) and `Nat` where the code only ever increments them
from zero (table indices).  The `uint32` casts in the source —
`uint32(sampleIndex+1)` and the keyframe numbers built from
`FindIDRFrames` in `Seek`, and `uint32(MemoryLimitSampleCapacity)` and
`uint32(cap(buf))` in `ReadMdatAtSample` — are modelled with an explicit
`% 4294967296`.

The Go `for` loops are translated to structural recursion on an explicit
bound: a loop `for i < e && i < n` becomes recursion on the remaining
count `e - i`, with the `i < n` test kept as an indexing test.  The bound
argument equals `e - i` at every call, so the translation is step-for-step
the source loop while staying kernel-computable.
-/

set_option autoImplicit false

namespace Mp4Read

/-- One entry of the sample table (`mp4.Track.Samples` of the go-mp4
collaborator): byte size (`uint32`), decode-time delta (`uint32`) and the
signed composition-time offset (`int64`). -/
structure Sample where
  Size : Nat
  TimeDelta : Nat
  CompositionTimeOffset : Int
  deriving DecidableEq, Repr

/-- One entry of the chunk table (`mp4.Track.Chunks`): base byte offset of
the chunk's data and the number of samples stored in the chunk. -/
structure Chunk where
  DataOffset : Nat
  SamplesPerChunk : Nat
  deriving DecidableEq, Repr

/-- Codec parameters held under `mp4.Track.AVC`; `nil` for non-video
tracks, modelled as `Option AVCInfo` on `Track`. -/
structure AVCInfo where
  Width : Nat
  Height : Nat
  LengthSize : Nat
  deriving DecidableEq, Repr

/-- A track descriptor as exposed by the container prober
(`mp4.Track`). -/
structure Track where
  TrackID : Nat
  AVC : Option AVCInfo
  Timescale : Nat
  Duration : Nat
  Chunks : List Chunk
  Samples : List Sample
  deriving DecidableEq, Repr

/-- The cursor record `mp4videoRead` (src/mp4read.go:16-22):
`{chunkIdx, sampleIdx, sampleEnd, decodingTime, dataOffset}`. -/
structure Mp4videoRead where
  chunkIdx : Nat
  sampleIdx : Nat
  sampleEnd : Nat
  decodingTime : Int
  dataOffset : Int
  deriving DecidableEq, Repr

/-- The Go zero value of `mp4videoRead`, the cursor's initial state. -/
def initRead : Mp4videoRead := ⟨0, 0, 0, 0, 0⟩

/-- The output record `VideoSampleInfo` (src/mp4read.go:37-44). -/
structure VideoSampleInfo where
  offset : Int
  size : Nat
  NalLengthSize : Nat
  TimeDelta : Nat
  Number : Int
  CompositionTime : Int
  deriving DecidableEq, Repr

/-- A `VideoSampleInfo` with every field zero, used as a caller-supplied
output record in concrete instances. -/
def emptyInfo : VideoSampleInfo := ⟨0, 0, 0, 0, 0, 0⟩

/-- The error values produced by the reader.  `endOfStream` embeds the
distinguished sentinel `ErrEndOfStream` (src/mp4read.go:57); the other
constructors embed the `fmt.Errorf`/`errors.New` failures, and `ioError`
stands for an error propagated verbatim from the underlying stream or the
go-mp4 collaborator. -/
inductive Mp4Error where
  | endOfStream
  | noTrack
  | trackNotFound (id : Int)
  | outOfRange (timestamp : Int)
  | capacityOver (size : Nat) (limit : Nat)
  | ioError (msg : String)
  deriving DecidableEq, Repr

/-- The field writes into `out` performed for every visited sample
(src/mp4read.go:293-297): byte offset, size, normalized composition
timestamp, sample number and decode-time delta. -/
def writeSample (r : Mp4videoRead) (s : Sample) (starttime : Int)
    (out : VideoSampleInfo) : VideoSampleInfo :=
  { out with
    offset := r.dataOffset
    size := s.Size
    CompositionTime := r.decodingTime + s.CompositionTimeOffset - starttime
    Number := (r.sampleIdx : Int)
    TimeDelta := s.TimeDelta }

/-- The cursor advance performed for every visited sample
(src/mp4read.go:299-301): bump the sample index, add the sample's size to
the data offset and its delta to the accumulated decode time. -/
def advanceSample (r : Mp4videoRead) (s : Sample) : Mp4videoRead :=
  { r with
    sampleIdx := r.sampleIdx + 1
    dataOffset := r.dataOffset + (s.Size : Int)
    decodingTime := r.decodingTime + (s.TimeDelta : Int) }

/-- The inner sample loop of `NextSample` (src/mp4read.go:290-305),
`for v.read.sampleIdx < v.read.sampleEnd && v.read.sampleIdx <
len(v.track.Samples)`.  The first conjunct of the loop condition is
carried by the bound argument (invoked with `sampleEnd - sampleIdx`); the
second is the indexing test.  Returns whether a sample was emitted
(`sample.Size > 0`), the cursor and the output record. -/
def nsInnerGo (t : Track) (starttime : Int) :
    Nat → Mp4videoRead → VideoSampleInfo →
    Bool × Mp4videoRead × VideoSampleInfo
  | 0, r, out => (false, r, out)
  | n + 1, r, out =>
    match t.Samples[r.sampleIdx]? with
    | none => (false, r, out)
    | some sample =>
      let out1 := writeSample r sample starttime out
      let r1 := advanceSample r sample
      if 0 < sample.Size then (true, r1, out1)
      else nsInnerGo t starttime n r1 out1

/-- The segment-boundary normalization of `NextSample`
(src/mp4read.go:286-289): when `sampleEnd` is the unset sentinel 0, set
it to `sampleIdx + SamplesPerChunk` and load the chunk's base data
offset. -/
def chunkEnter (r : Mp4videoRead) (chunk : Chunk) : Mp4videoRead :=
  if r.sampleEnd = 0 then
    { r with
      sampleEnd := r.sampleIdx + chunk.SamplesPerChunk
      dataOffset := (chunk.DataOffset : Int) }
  else r

/-- The chunk advance of `NextSample` (src/mp4read.go:306-307): reset
`sampleEnd` to the unset sentinel and bump the chunk index. -/
def chunkNext (r : Mp4videoRead) : Mp4videoRead :=
  { r with sampleEnd := 0, chunkIdx := r.chunkIdx + 1 }

/-- The outer chunk loop of `NextSample` (src/mp4read.go:284-308),
`for v.read.chunkIdx < len(v.track.Chunks)`.  The loop condition is
carried by the bound argument (invoked with `len(Chunks) - chunkIdx`) and
by the indexing test; on loop exit the function returns the
`ErrEndOfStream` sentinel. -/
def nsOuterGo (t : Track) (starttime : Int) :
    Nat → Mp4videoRead → VideoSampleInfo →
    Except Mp4Error Unit × Mp4videoRead × VideoSampleInfo
  | 0, r, out => (.error .endOfStream, r, out)
  | n + 1, r, out =>
    match t.Chunks[r.chunkIdx]? with
    | none => (.error .endOfStream, r, out)
    | some chunk =>
      let r1 := chunkEnter r chunk
      match nsInnerGo t starttime (r1.sampleEnd - r1.sampleIdx) r1 out with
      | (true, r2, out2) => (.ok (), r2, out2)
      | (false, r2, out2) => nsOuterGo t starttime n (chunkNext r2) out2

/-- The body of `NextSample` after the track check and the
`NalLengthSize` assignment (src/mp4read.go:284-309), acting on the cursor
and the output record. -/
def nsOuter (t : Track) (starttime : Int) (r : Mp4videoRead)
    (out : VideoSampleInfo) :
    Except Mp4Error Unit × Mp4videoRead × VideoSampleInfo :=
  nsOuterGo t starttime (t.Chunks.length - r.chunkIdx) r out

/-- The mutable fields of the `Mp4read` struct (src/mp4read.go:23-32)
that the core operations touch: the probed track list, the selected
track, the cursor `read`, the codec configuration `spspps`, the keyframe
index `stss` and the start-time correction `_starttime`.  Go's nil slices
`stss`/`spspps` are `none` (the nil test `v.stss == nil` is significant in
`Seek`). -/
structure Mp4State where
  probeTracks : List Track
  track : Option Track
  read : Mp4videoRead
  spspps : Option (List (List Nat))
  stss : Option (List Nat)
  starttime : Int
  deriving DecidableEq, Repr

/-- The `NalLengthSize` source `v.track.AVC.LengthSize`
(src/mp4read.go:283).  The Go code dereferences `AVC` unconditionally;
`AVC = none` would panic there and is unreachable for tracks chosen by
`SetVideoTrack`, so it is mapped to 0. -/
def nalLengthOf (t : Track) : Nat :=
  match t.AVC with
  | some a => a.LengthSize
  | none => 0

/-- `NextSample` (src/mp4read.go:279-310): fails when no track is
selected, otherwise writes `NalLengthSize` into `out` unconditionally and
runs the chunk/sample walk on the cursor. -/
def nextSample (v : Mp4State) (out : VideoSampleInfo) :
    Except Mp4Error Unit × Mp4State × VideoSampleInfo :=
  match v.track with
  | none => (.error .noTrack, v, out)
  | some t =>
    let out1 := { out with NalLengthSize := nalLengthOf t }
    match nsOuter t v.starttime v.read out1 with
    | (res, r, out2) => (res, { v with read := r }, out2)

/-- The per-chunk scan accumulator of `Seek` (src/mp4read.go:357-360):
the running sample index, the cursor into the keyframe index, the
accumulated decode time and the remembered candidate keyframe position
`idr`. -/
structure SeekAcc where
  sampleIndex : Nat
  stssIdx : Nat
  decodingTime : Int
  idr : Mp4videoRead
  deriving DecidableEq, Repr

/-- The initial `Seek` accumulator: all counters zero and `idr` the Go
zero value. -/
def initAcc : SeekAcc := ⟨0, 0, 0, initRead⟩

/-- Outcome of the `Seek` scan when a sample matches: `notMoved` embeds
the `return false, nil` branch, `moved idr` the `v.read = idr; return
true, nil` branch (src/mp4read.go:382-386). -/
inductive SeekHit where
  | notMoved
  | moved (idr : Mp4videoRead)
  deriving DecidableEq, Repr

/-- The inner sample loop of `Seek` (src/mp4read.go:367-389),
`for ; sampleIndex < end && sampleIndex < len(v.track.Samples);
sampleIndex++`.  The first conjunct of the loop condition is carried by
the bound argument (invoked with `end - sampleIndex`); the second is the
indexing test.  A zero-size sample is passed over by `continue`; a
keyframe-index hit (`v.stss[stssIdx] == uint32(sampleIndex+1)`) remembers
the candidate position and bumps `stssIdx`; after accumulating the
sample's delta, a sample with `timestamp < decodingTime +
CompositionTimeOffset` decides the seek.  Returns the hit (if any)
together with the loop-local `offset` and the accumulator for the
fall-through continuation. -/
def seekInnerGo (t : Track) (stss : List Nat) (force : Bool)
    (read : Mp4videoRead) (timestamp : Int) (chunkIndex endIdx : Nat) :
    Nat → Int → SeekAcc → Option SeekHit × Int × SeekAcc
  | 0, offset, acc => (none, offset, acc)
  | n + 1, offset, acc =>
    match t.Samples[acc.sampleIndex]? with
    | none => (none, offset, acc)
    | some sample =>
      if sample.Size = 0 then
        seekInnerGo t stss force read timestamp chunkIndex endIdx n offset
          { acc with sampleIndex := acc.sampleIndex + 1 }
      else
        let acc1 :=
          if stss[acc.stssIdx]? = some ((acc.sampleIndex + 1) % 4294967296) then
            { acc with
              stssIdx := acc.stssIdx + 1
              idr := { chunkIdx := chunkIndex, sampleIdx := acc.sampleIndex,
                       sampleEnd := endIdx, decodingTime := acc.decodingTime,
                       dataOffset := offset } }
          else acc
        let dt := acc1.decodingTime + (sample.TimeDelta : Int)
        if timestamp < dt + sample.CompositionTimeOffset then
          if force = false ∧ acc1.idr.sampleIdx ≤ read.sampleIdx ∧
              read.sampleIdx ≤ acc1.sampleIndex + 1 then
            (some SeekHit.notMoved, offset, { acc1 with decodingTime := dt })
          else
            (some (SeekHit.moved acc1.idr), offset,
              { acc1 with decodingTime := dt })
        else
          seekInnerGo t stss force read timestamp chunkIndex endIdx n
            (offset + (sample.Size : Int))
            { acc1 with decodingTime := dt, sampleIndex := acc1.sampleIndex + 1 }

/-- The outer chunk loop of `Seek` (src/mp4read.go:364-390),
`for chunkIndex, chunk := range v.track.Chunks`, with the per-chunk
locals `end := sampleIndex + int(chunk.SamplesPerChunk)` and
`offset := int64(chunk.DataOffset)`. -/
def seekOuterGo (t : Track) (stss : List Nat) (force : Bool)
    (read : Mp4videoRead) (timestamp : Int) :
    List Chunk → Nat → SeekAcc → Option SeekHit × SeekAcc
  | [], _, acc => (none, acc)
  | chunk :: rest, chunkIndex, acc =>
    let endIdx := acc.sampleIndex + chunk.SamplesPerChunk
    match seekInnerGo t stss force read timestamp chunkIndex endIdx
        (endIdx - acc.sampleIndex) (chunk.DataOffset : Int) acc with
    | (some hit, _, acc1) => (some hit, acc1)
    | (none, _, acc1) =>
      seekOuterGo t stss force read timestamp rest (chunkIndex + 1) acc1

/-- The complete `Seek` scan (src/mp4read.go:357-390), started from the
zero-valued locals, on an already adjusted timestamp. -/
def seekScan (t : Track) (stss : List Nat) (force : Bool)
    (read : Mp4videoRead) (timestamp : Int) : Option SeekHit × SeekAcc :=
  seekOuterGo t stss force read timestamp t.Chunks 0 initAcc

/-- `Seek` from the point where the keyframe index is available
(src/mp4read.go:357-391): adjust the timestamp by `_starttime`, run the
scan, and either leave the state alone (`false`), install the candidate
keyframe position into the cursor (`true`) or fail with the out-of-range
error. -/
def seekWith (v : Mp4State) (t : Track) (stss : List Nat)
    (timestamp : Int) (force : Bool) : Except Mp4Error Bool × Mp4State :=
  let ts := timestamp + v.starttime
  match (seekScan t stss force v.read ts).1 with
  | some SeekHit.notMoved => (.ok false, v)
  | some (SeekHit.moved idr) => (.ok true, { v with read := idr })
  | none => (.error (.outOfRange ts), v)

/-- `Seek` (src/mp4read.go:342-392).  The lazy keyframe-index
construction calls the collaborator `mp4.FindIDRFrames`; its result for
this call is passed in as `findIDR` (a list of 0-based sample indices, or
a stream error).  On success the index entries are stored as
`uint32(stss[i]) + 1` (src/mp4read.go:352-355). -/
def seek (v : Mp4State) (findIDR : Except String (List Nat))
    (timestamp : Int) (force : Bool) : Except Mp4Error Bool × Mp4State :=
  match v.track with
  | none => (.error .noTrack, v)
  | some t =>
    match v.stss with
    | some stss => seekWith v t stss timestamp force
    | none =>
      match findIDR with
      | .error e => (.error (.ioError e), v)
      | .ok idrs =>
        let stss := idrs.map (fun n => (n % 4294967296 + 1) % 4294967296)
        seekWith { v with stss := some stss } t stss timestamp force

/-- Spec §4.4 steps 3-4, stated without the `force`/cursor decision: walk
chunks and samples from the start exactly as the scan does, remembering
the candidate keyframe position at every keyframe-index hit, and report
the first non-zero-size sample in decode order whose accumulated decode
time plus composition offset strictly exceeds the adjusted target,
together with the candidate remembered at that point.  Inner sample loop
of the walk; same loop-bound convention as `seekInnerGo`. -/
def seekFindInner (t : Track) (stss : List Nat) (timestamp : Int)
    (chunkIndex endIdx : Nat) :
    Nat → Int → SeekAcc → Option (Nat × Mp4videoRead) × Int × SeekAcc
  | 0, offset, acc => (none, offset, acc)
  | n + 1, offset, acc =>
    match t.Samples[acc.sampleIndex]? with
    | none => (none, offset, acc)
    | some sample =>
      if sample.Size = 0 then
        seekFindInner t stss timestamp chunkIndex endIdx n offset
          { acc with sampleIndex := acc.sampleIndex + 1 }
      else
        let acc1 :=
          if stss[acc.stssIdx]? = some ((acc.sampleIndex + 1) % 4294967296) then
            { acc with
              stssIdx := acc.stssIdx + 1
              idr := { chunkIdx := chunkIndex, sampleIdx := acc.sampleIndex,
                       sampleEnd := endIdx, decodingTime := acc.decodingTime,
                       dataOffset := offset } }
          else acc
        let dt := acc1.decodingTime + (sample.TimeDelta : Int)
        if timestamp < dt + sample.CompositionTimeOffset then
          (some (acc1.sampleIndex, acc1.idr), offset,
            { acc1 with decodingTime := dt })
        else
          seekFindInner t stss timestamp chunkIndex endIdx n
            (offset + (sample.Size : Int))
            { acc1 with decodingTime := dt, sampleIndex := acc1.sampleIndex + 1 }

/-- Outer chunk loop of the spec-side match finder. -/
def seekFindOuter (t : Track) (stss : List Nat) (timestamp : Int) :
    List Chunk → Nat → SeekAcc → Option (Nat × Mp4videoRead) × SeekAcc
  | [], _, acc => (none, acc)
  | chunk :: rest, chunkIndex, acc =>
    let endIdx := acc.sampleIndex + chunk.SamplesPerChunk
    match seekFindInner t stss timestamp chunkIndex endIdx
        (endIdx - acc.sampleIndex) (chunk.DataOffset : Int) acc with
    | (some hit, _, acc1) => (some hit, acc1)
    | (none, _, acc1) =>
      seekFindOuter t stss timestamp rest (chunkIndex + 1) acc1

/-- The matching sample of a seek target (spec §4.4): the index of the
first non-zero-size sample, in decode order, whose accumulated decode
time plus composition offset strictly exceeds the adjusted timestamp,
paired with the candidate keyframe position remembered at that point.
`none` when no sample matches (the out-of-range case). -/
def seekFind (t : Track) (stss : List Nat) (timestamp : Int) :
    Option (Nat × Mp4videoRead) :=
  (seekFindOuter t stss timestamp t.Chunks 0 initAcc).1

/-- The start-time scan of `Initialize` (src/mp4read.go:209-217): fold
over the samples, taking the minimum of `decodingTime +
CompositionTimeOffset`, breaking at the first sample whose composition
offset is zero, and accumulating the decode-time delta otherwise. -/
def starttimeScan : List Sample → Int → Int → Int
  | [], _, starttime => starttime
  | s :: rest, decodingTime, starttime =>
    let starttime1 := min starttime (decodingTime + s.CompositionTimeOffset)
    if s.CompositionTimeOffset = 0 then starttime1
    else starttimeScan rest (decodingTime + (s.TimeDelta : Int)) starttime1

/-- The `_starttime` computation of `Initialize` (src/mp4read.go:208-221):
the scan starts from the sentinel `2147483647`, and `_starttime` is only
assigned when the scan moved off the sentinel; `old` is the previous
value of `v._starttime`. -/
def initializeStarttime (samples : List Sample) (old : Int) : Int :=
  let st := starttimeScan samples 0 2147483647
  if st ≠ 2147483647 then st else old

/-- The track-selection loop of `SetVideoTrack` (src/mp4read.go:181-191):
the first probed track that has AVC codec parameters and, unless `id` is
`-1`, carries the requested track id. -/
def findVideoTrack (id : Int) : List Track → Option Track
  | [] => none
  | t :: rest =>
    match t.AVC with
    | none => findVideoTrack id rest
    | some _ =>
      if id ≠ -1 ∧ id ≠ (t.TrackID : Int) then findVideoTrack id rest
      else some t

/-- `SetVideoTrack` (src/mp4read.go:177-193): clear `track`, `stss` and
`spspps`, then select the first matching video track; the error return
leaves the cleared fields in place. -/
def setVideoTrack (v : Mp4State) (id : Int) :
    Except Mp4Error Unit × Mp4State :=
  let v1 := { v with track := none, stss := none, spspps := none }
  match findVideoTrack id v.probeTracks with
  | some t => (.ok (), { v1 with track := some t })
  | none => (.error (.trackNotFound id), v1)

/-- A Go byte slice, reduced to the fields the mdat reader observes: the
capacity of the backing array and the held bytes. -/
structure GoSlice where
  cap : Nat
  data : List Nat
  deriving DecidableEq, Repr

/-- One positional operation issued against the underlying stream. -/
inductive StreamOp where
  | seekTo (offset : Int)
  | readBytes (n : Nat)
  deriving DecidableEq, Repr

/-- Default of the package variable `MemoryLimitSampleCapacity`
(src/mp4read.go:60). -/
def MemoryLimitSampleCapacity : Nat := 4 * 1024 * 1024

/-- `ReadMdatAtSample` (src/mp4read.go:315-334) against a stream modelled
as its byte contents.  Returns the result, whether a fresh buffer was
allocated (`make([]byte, info.size)`) rather than the caller's buffer
being resliced (`buf[:info.size]`), and the positional stream operations
performed.  The reuse test is `info.size > uint32(cap(buf))`
(src/mp4read.go:322): the capacity is truncated to `uint32` before the
comparison, hence the `% 4294967296`; a reslice keeps the backing
array's full capacity.  `Seek` on a negative offset fails; `io.ReadFull`
fails unless the stream holds `info.size` bytes at the offset, and on
success it returns exactly `len(avc) = info.size` bytes, so the final
`n != int(info.size)` test of the source can never fire. -/
def readMdatAtSample (stream : List Nat) (memLimit : Nat)
    (info : VideoSampleInfo) (buf : GoSlice) :
    Except Mp4Error GoSlice × Bool × List StreamOp :=
  if memLimit % 4294967296 < info.size then
    (.error (.capacityOver info.size memLimit), false, [])
  else if info.offset < 0 then
    (.error (.ioError "seek"), false, [StreamOp.seekTo info.offset])
  else
    let newAlloc := buf.cap % 4294967296 < info.size
    let avcCap := if newAlloc then info.size else buf.cap
    let bytes := (stream.drop info.offset.toNat).take info.size
    if bytes.length = info.size then
      (.ok { cap := avcCap, data := bytes }, newAlloc,
        [StreamOp.seekTo info.offset, StreamOp.readBytes info.size])
    else
      (.error (.ioError "unexpected EOF"), newAlloc,
        [StreamOp.seekTo info.offset, StreamOp.readBytes info.size])

/-- The sample table of `zeroWipe t` keeps every sample with data
unchanged and clears the timing fields of every zero-size sample. -/
def zeroWipeSample (s : Sample) : Sample :=
  if s.Size = 0 then { s with TimeDelta := 0, CompositionTimeOffset := 0 }
  else s

/-- The track with the decode-time delta and composition offset of every
zero-size sample erased; the `Seek` scan cannot distinguish it from the
original. -/
def zeroWipe (t : Track) : Track :=
  { t with Samples := t.Samples.map zeroWipeSample }

/-- Concrete video track used in witnesses: two chunks of two samples,
one zero-size sample, keyframes at sample numbers 1 and 3. -/
def trackA : Track :=
  { TrackID := 1, AVC := some ⟨16, 16, 4⟩, Timescale := 90000,
    Duration := 12000,
    Chunks := [⟨100, 2⟩, ⟨300, 2⟩],
    Samples := [⟨10, 3000, 0⟩, ⟨0, 3000, 0⟩, ⟨20, 3000, 0⟩, ⟨30, 3000, 0⟩] }

/-- Keyframe index for `trackA`: 1-based sample numbers 1 and 3. -/
def stssA : List Nat := [1, 3]

/-- A reader state with `trackA` selected, the keyframe index loaded and
the cursor at the initial position. -/
def stateA : Mp4State :=
  { probeTracks := [trackA], track := some trackA, read := initRead,
    spspps := some [[103]], stss := some stssA, starttime := 0 }

/-- Concrete track whose middle sample has size zero: sequential reads
yield sample numbers 0 and 2. -/
def track7 : Track :=
  { TrackID := 1, AVC := some ⟨16, 16, 4⟩, Timescale := 90000,
    Duration := 30,
    Chunks := [⟨0, 3⟩],
    Samples := [⟨1, 10, 0⟩, ⟨0, 10, 0⟩, ⟨1, 10, 0⟩] }

/-- Concrete track whose first sample has size zero but a decode-time
delta of 100 ticks: the `Seek` scan never adds that delta. -/
def track4 : Track :=
  { TrackID := 1, AVC := some ⟨16, 16, 4⟩, Timescale := 90000,
    Duration := 110,
    Chunks := [⟨0, 2⟩],
    Samples := [⟨0, 100, 0⟩, ⟨5, 10, 0⟩] }

/-- Concrete track ending in a zero-size sample, for the end-of-stream
record-mutation instance. -/
def track10 : Track :=
  { TrackID := 1, AVC := some ⟨16, 16, 4⟩, Timescale := 90000,
    Duration := 12,
    Chunks := [⟨10, 2⟩],
    Samples := [⟨1, 5, 0⟩, ⟨0, 7, 5⟩] }

/-- A reader state positioned just before the trailing zero-size sample
of `track10`. -/
def state10 : Mp4State :=
  { probeTracks := [track10], track := some track10, read := ⟨0, 1, 2, 3, 11⟩,
    spspps := some [[103]], stss := some [1], starttime := 0 }

/-- A second video track, used to exercise track switching. -/
def trackB : Track :=
  { TrackID := 2, AVC := some ⟨32, 32, 4⟩, Timescale := 90000,
    Duration := 6000,
    Chunks := [⟨500, 1⟩],
    Samples := [⟨40, 6000, 0⟩] }

/-- A reader state mid-stream on `trackA`, with a loaded keyframe index
and codec configuration, about to switch tracks. -/
def state8 : Mp4State :=
  { probeTracks := [trackA, trackB], track := some trackA,
    read := ⟨1, 2, 3, 4, 5⟩, spspps := some [[7]], stss := some [1],
    starttime := 9 }

/-- The sample table of the spec's concrete start-time scenario: decode
deltas all 3000, composition offsets `[0, 3000, -3000, 0, 3000, -3000]`. -/
def c5track : Track :=
  { TrackID := 1, AVC := some ⟨16, 16, 4⟩, Timescale := 90000,
    Duration := 18000,
    Chunks := [⟨0, 2⟩, ⟨3, 2⟩, ⟨6, 2⟩],
    Samples := [⟨1, 3000, 0⟩, ⟨1, 3000, 3000⟩, ⟨1, 3000, -3000⟩,
                ⟨1, 3000, 0⟩, ⟨1, 3000, 3000⟩, ⟨1, 3000, -3000⟩] }

theorem advanceSample_chunkIdx (r : Mp4videoRead) (s : Sample) :
    (advanceSample r s).chunkIdx = r.chunkIdx := rfl

theorem advanceSample_sampleEnd (r : Mp4videoRead) (s : Sample) :
    (advanceSample r s).sampleEnd = r.sampleEnd := rfl

theorem advanceSample_sampleIdx (r : Mp4videoRead) (s : Sample) :
    (advanceSample r s).sampleIdx = r.sampleIdx + 1 := rfl

theorem writeSample_NalLengthSize (r : Mp4videoRead) (s : Sample)
    (st : Int) (out : VideoSampleInfo) :
    (writeSample r s st out).NalLengthSize = out.NalLengthSize := rfl

/-- A fall-through of the inner `NextSample` loop leaves chunk index,
segment end and data offset unchanged, never decreases the sample index,
and every sample it passed over has size zero. -/
theorem nsInnerGo_false_spec (t : Track) (st : Int) :
    ∀ (n : Nat) (r : Mp4videoRead) (out : VideoSampleInfo)
      (rf : Mp4videoRead) (outf : VideoSampleInfo),
    nsInnerGo t st n r out = (false, rf, outf) →
    rf.chunkIdx = r.chunkIdx ∧ rf.sampleEnd = r.sampleEnd ∧
    r.sampleIdx ≤ rf.sampleIdx ∧ rf.dataOffset = r.dataOffset ∧
    ∀ j, r.sampleIdx ≤ j → j < rf.sampleIdx →
      ∃ s, t.Samples[j]? = some s ∧ s.Size = 0 := by
  intro n
  induction n with
  | zero =>
    intro r out rf outf h
    simp only [nsInnerGo, Prod.mk.injEq] at h
    obtain ⟨-, h1, h2⟩ := h
    subst h1; subst h2
    refine ⟨rfl, rfl, le_refl _, rfl, ?_⟩
    intro j hj1 hj2; omega
  | succ n ih =>
    intro r out rf outf h
    rw [nsInnerGo] at h
    cases hs : t.Samples[r.sampleIdx]? with
    | none =>
      rw [hs] at h
      simp only [Prod.mk.injEq] at h
      obtain ⟨-, h1, h2⟩ := h
      subst h1; subst h2
      refine ⟨rfl, rfl, le_refl _, rfl, ?_⟩
      intro j hj1 hj2; omega
    | some s =>
      rw [hs] at h
      simp only [] at h
      by_cases hz : 0 < s.Size
      · rw [if_pos hz] at h
        simp only [Prod.mk.injEq] at h
        exact absurd h.1 (by simp)
      · rw [if_neg hz] at h
        obtain ⟨h1, h2, h3, h4, h5⟩ :=
          ih (advanceSample r s) (writeSample r s st out) rf outf h
        rw [advanceSample_chunkIdx] at h1
        rw [advanceSample_sampleEnd] at h2
        rw [advanceSample_sampleIdx] at h3
        refine ⟨h1, h2, by omega, ?_, ?_⟩
        · rw [h4]
          simp only [advanceSample]
          omega
        · intro j hj1 hj2
          rcases Nat.eq_or_lt_of_le hj1 with hj | hj
          · exact ⟨s, hj ▸ hs, by omega⟩
          · exact h5 j (by simp [advanceSample_sampleIdx]; omega) hj2

/-- An emission of the inner `NextSample` loop: the emitted record
describes a non-zero-size sample at index `rf.sampleIdx - 1`, carries the
data offset accumulated at that sample, and every sample passed over
before it has size zero. -/
theorem nsInnerGo_true_spec (t : Track) (st : Int) :
    ∀ (n : Nat) (r : Mp4videoRead) (out : VideoSampleInfo)
      (rf : Mp4videoRead) (outf : VideoSampleInfo),
    nsInnerGo t st n r out = (true, rf, outf) →
    rf.chunkIdx = r.chunkIdx ∧ rf.sampleEnd = r.sampleEnd ∧
    r.sampleIdx < rf.sampleIdx ∧
    (∃ s, t.Samples[rf.sampleIdx - 1]? = some s ∧ 0 < s.Size ∧
      outf.size = s.Size) ∧
    outf.Number = ((rf.sampleIdx - 1 : Nat) : Int) ∧
    outf.offset = r.dataOffset ∧
    rf.dataOffset = outf.offset + (outf.size : Int) ∧
    outf.NalLengthSize = out.NalLengthSize ∧
    ∀ j, r.sampleIdx ≤ j → j + 1 < rf.sampleIdx →
      ∃ s0, t.Samples[j]? = some s0 ∧ s0.Size = 0 := by
  intro n
  induction n with
  | zero =>
    intro r out rf outf h
    simp only [nsInnerGo, Prod.mk.injEq] at h
    exact absurd h.1 (by simp)
  | succ n ih =>
    intro r out rf outf h
    rw [nsInnerGo] at h
    cases hs : t.Samples[r.sampleIdx]? with
    | none =>
      rw [hs] at h
      simp only [Prod.mk.injEq] at h
      exact absurd h.1 (by simp)
    | some s =>
      rw [hs] at h
      simp only [] at h
      by_cases hz : 0 < s.Size
      · rw [if_pos hz] at h
        simp only [Prod.mk.injEq] at h
        obtain ⟨-, h1, h2⟩ := h
        subst h1; subst h2
        refine ⟨rfl, rfl, by simp [advanceSample], ?_, ?_, ?_, ?_, ?_, ?_⟩
        · exact ⟨s, by simpa [advanceSample] using hs, hz, rfl⟩
        · simp [advanceSample, writeSample]
        · rfl
        · simp [advanceSample, writeSample]
        · rfl
        · intro j hj1 hj2
          simp only [advanceSample_sampleIdx] at hj2
          omega
      · rw [if_neg hz] at h
        obtain ⟨h1, h2, h3, h4, h5, h6, h7, h8, h9⟩ :=
          ih (advanceSample r s) (writeSample r s st out) rf outf h
        rw [advanceSample_chunkIdx] at h1
        rw [advanceSample_sampleEnd] at h2
        rw [advanceSample_sampleIdx] at h3
        refine ⟨h1, h2, by omega, h4, h5, ?_, h7, ?_, ?_⟩
        · rw [h6]
          simp only [advanceSample]
          omega
        · rw [h8, writeSample_NalLengthSize]
        · intro j hj1 hj2
          rcases Nat.eq_or_lt_of_le hj1 with hj | hj
          · exact ⟨s, hj ▸ hs, by omega⟩
          · exact h9 j (by simp [advanceSample_sampleIdx]; omega) hj2

/-- The inner `NextSample` loop writes the output record only through
`writeSample`, so the `NalLengthSize` field survives the loop. -/
theorem nsInnerGo_nal (t : Track) (st : Int) :
    ∀ (n : Nat) (r : Mp4videoRead) (out : VideoSampleInfo),
    (nsInnerGo t st n r out).2.2.NalLengthSize = out.NalLengthSize := by
  intro n
  induction n with
  | zero => intro r out; rfl
  | succ n ih =>
    intro r out
    rw [nsInnerGo]
    cases hs : t.Samples[r.sampleIdx]? with
    | none => rfl
    | some s =>
      by_cases hz : 0 < s.Size
      · simp only [hz, if_pos]
        exact writeSample_NalLengthSize r s st out
      · simp only [hz, if_neg, if_false]
        rw [ih, writeSample_NalLengthSize]

theorem chunkEnter_chunkIdx (r : Mp4videoRead) (c : Chunk) :
    (chunkEnter r c).chunkIdx = r.chunkIdx := by
  rw [chunkEnter]; split <;> rfl

theorem chunkEnter_sampleIdx (r : Mp4videoRead) (c : Chunk) :
    (chunkEnter r c).sampleIdx = r.sampleIdx := by
  rw [chunkEnter]; split <;> rfl

theorem chunkNext_chunkIdx (r : Mp4videoRead) :
    (chunkNext r).chunkIdx = r.chunkIdx + 1 := rfl

theorem chunkNext_sampleIdx (r : Mp4videoRead) :
    (chunkNext r).sampleIdx = r.sampleIdx := rfl

theorem chunkNext_sampleEnd (r : Mp4videoRead) :
    (chunkNext r).sampleEnd = 0 := rfl

/-- The chunk loop of `NextSample` preserves the `NalLengthSize` field of
the output record. -/
theorem nsOuterGo_nal (t : Track) (st : Int) :
    ∀ (n : Nat) (r : Mp4videoRead) (out : VideoSampleInfo),
    (nsOuterGo t st n r out).2.2.NalLengthSize = out.NalLengthSize := by
  intro n
  induction n with
  | zero => intro r out; rfl
  | succ n ih =>
    intro r out
    rw [nsOuterGo]
    cases hc : t.Chunks[r.chunkIdx]? with
    | none => rfl
    | some chunk =>
      simp only []
      rcases hinner : nsInnerGo t st
          ((chunkEnter r chunk).sampleEnd - (chunkEnter r chunk).sampleIdx)
          (chunkEnter r chunk) out with ⟨em, r2, out2⟩
      have hnal : out2.NalLengthSize = out.NalLengthSize := by
        have := nsInnerGo_nal t st
          ((chunkEnter r chunk).sampleEnd - (chunkEnter r chunk).sampleIdx)
          (chunkEnter r chunk) out
        rw [hinner] at this
        exact this
      cases em
      · simp only []
        rw [ih (chunkNext r2) out2, hnal]
      · simp only []
        exact hnal

/-- Anatomy of a successful `NextSample` step: the cursor lands one past
the emitted sample, which is a non-zero-size one inside a chunk; the
emitted record's number is that sample's index, its data offset plus its
size is the post-state data offset, a continuation inside the same chunk
emits at the current data offset, a continuation from a chunk boundary
emits at some chunk's base offset, and every sample passed over on the
way has size zero. -/
theorem nsOuterGo_ok_spec (t : Track) (st : Int) :
    ∀ (n : Nat) (r : Mp4videoRead) (out : VideoSampleInfo)
      (rf : Mp4videoRead) (outf : VideoSampleInfo),
    nsOuterGo t st n r out = (.ok (), rf, outf) →
    r.chunkIdx ≤ rf.chunkIdx ∧
    rf.chunkIdx < t.Chunks.length ∧
    0 < rf.sampleEnd ∧
    0 < rf.sampleIdx ∧
    (∃ s, t.Samples[rf.sampleIdx - 1]? = some s ∧ 0 < s.Size ∧
      outf.size = s.Size) ∧
    outf.Number = ((rf.sampleIdx - 1 : Nat) : Int) ∧
    rf.dataOffset = outf.offset + (outf.size : Int) ∧
    r.sampleIdx ≤ rf.sampleIdx - 1 ∧
    (∀ j, r.sampleIdx ≤ j → j + 1 < rf.sampleIdx →
      ∃ s0, t.Samples[j]? = some s0 ∧ s0.Size = 0) ∧
    (rf.chunkIdx = r.chunkIdx → r.sampleEnd ≠ 0 → outf.offset = r.dataOffset) ∧
    (r.sampleEnd = 0 → ∃ c, t.Chunks[rf.chunkIdx]? = some c ∧
      outf.offset = (c.DataOffset : Int)) := by
  intro n
  induction n with
  | zero =>
    intro r out rf outf h
    simp only [nsOuterGo, Prod.mk.injEq] at h
    exact absurd h.1 (by simp)
  | succ n ih =>
    intro r out rf outf h
    rw [nsOuterGo] at h
    cases hc : t.Chunks[r.chunkIdx]? with
    | none =>
      rw [hc] at h
      simp only [Prod.mk.injEq] at h
      exact absurd h.1 (by simp)
    | some chunk =>
      rw [hc] at h
      simp only [] at h
      rcases hinner : nsInnerGo t st
          ((chunkEnter r chunk).sampleEnd - (chunkEnter r chunk).sampleIdx)
          (chunkEnter r chunk) out with ⟨em, r2, out2⟩
      rw [hinner] at h
      have hclen : r.chunkIdx < t.Chunks.length := by
        rcases List.getElem?_eq_some.1 hc with ⟨h1, -⟩
        exact h1
      cases em
      · simp only [] at h
        obtain ⟨hf1, hf2, hf3, hf4, hf5⟩ :=
          nsInnerGo_false_spec t st _ _ _ _ _ hinner
        rw [chunkEnter_chunkIdx] at hf1
        rw [chunkEnter_sampleIdx] at hf3
        simp only [chunkEnter_sampleIdx] at hf5
        obtain ⟨g1, g2, g3, g4, g5, g6, g7, g8, g9, g10, g11⟩ :=
          ih (chunkNext r2) out2 rf outf h
        rw [chunkNext_chunkIdx, hf1] at g1
        rw [chunkNext_sampleIdx] at g8 g9
        refine ⟨by omega, g2, g3, g4, g5, g6, g7, by omega, ?_, ?_, ?_⟩
        · intro j hj1 hj2
          by_cases hj3 : j < r2.sampleIdx
          · exact hf5 j hj1 hj3
          · exact g9 j (by omega) hj2
        · intro hcc
          omega
        · intro hse
          exact g11 (chunkNext_sampleEnd r2)
      · simp only [Prod.mk.injEq] at h
        obtain ⟨-, rfl, rfl⟩ := h
        obtain ⟨e1, e2, e3, e4, e5, e6, e7, e8, e9⟩ :=
          nsInnerGo_true_spec t st _ _ _ _ _ hinner
        rw [chunkEnter_chunkIdx] at e1
        rw [chunkEnter_sampleIdx] at e3
        simp only [chunkEnter_sampleIdx] at e9
        have hend : 0 < r2.sampleEnd := by
          rcases Nat.eq_zero_or_pos
              ((chunkEnter r chunk).sampleEnd - (chunkEnter r chunk).sampleIdx)
              with hz | hz
          · rw [hz] at hinner
            simp only [nsInnerGo, Prod.mk.injEq] at hinner
            exact absurd hinner.1 (by simp)
          · rw [e2]; omega
        refine ⟨by omega, by omega, hend, by omega, e4, e5, e7, by omega,
          e9, ?_, ?_⟩
        · intro hcc hse
          rw [e6, chunkEnter, if_neg hse]
        · intro hse
          refine ⟨chunk, ?_, ?_⟩
          · rw [e1, hc]
          · rw [e6, chunkEnter, if_pos hse]

/-- When the chunk loop of `NextSample` exits without emitting, the error
is exactly the `ErrEndOfStream` sentinel and, provided the loop bound
covers the chunk table, the final cursor has exhausted the chunk table. -/
theorem nsOuterGo_err_spec (t : Track) (st : Int) :
    ∀ (n : Nat) (r : Mp4videoRead) (out : VideoSampleInfo) (e : Mp4Error)
      (rf : Mp4videoRead) (outf : VideoSampleInfo),
    nsOuterGo t st n r out = (.error e, rf, outf) →
    e = Mp4Error.endOfStream ∧
    (t.Chunks.length ≤ n + r.chunkIdx → t.Chunks.length ≤ rf.chunkIdx) := by
  intro n
  induction n with
  | zero =>
    intro r out e rf outf h
    simp only [nsOuterGo, Prod.mk.injEq] at h
    obtain ⟨h1, h2, -⟩ := h
    obtain rfl : Mp4Error.endOfStream = e := by
      cases h1' : (Except.error Mp4Error.endOfStream : Except Mp4Error Unit)
      · injection h1
      · exact absurd (h1' ▸ h1) (by simp)
    exact ⟨rfl, fun hlen => h2 ▸ by omega⟩
  | succ n ih =>
    intro r out e rf outf h
    rw [nsOuterGo] at h
    cases hc : t.Chunks[r.chunkIdx]? with
    | none =>
      rw [hc] at h
      simp only [Prod.mk.injEq] at h
      obtain ⟨h1, h2, -⟩ := h
      have hlen : t.Chunks.length ≤ r.chunkIdx := by
        by_contra hlt
        rw [List.getElem?_eq_getElem (by omega)] at hc
        exact absurd hc (by simp)
      refine ⟨by injection h1 with h1'; exact h1'.symm, fun _ => h2 ▸ hlen⟩
    | some chunk =>
      rw [hc] at h
      simp only [] at h
      rcases hinner : nsInnerGo t st
          ((chunkEnter r chunk).sampleEnd - (chunkEnter r chunk).sampleIdx)
          (chunkEnter r chunk) out with ⟨em, r2, out2⟩
      rw [hinner] at h
      cases em
      · simp only [] at h
        obtain ⟨g1, g2⟩ := ih (chunkNext r2) out2 e rf outf h
        obtain ⟨hf1, -⟩ := nsInnerGo_false_spec t st _ _ _ _ _ hinner
        rw [chunkEnter_chunkIdx] at hf1
        refine ⟨g1, fun hlen => g2 ?_⟩
        rw [chunkNext_chunkIdx, hf1]
        omega
      · simp only [Prod.mk.injEq] at h
        exact absurd h.1 (by simp)

/-- A zero-size sample at the cursor (inside the current segment of the
current chunk) is skipped: `NextSample` behaves exactly as it does from
the cursor advanced past that sample — sample index bumped, the (zero)
size added to the data offset, the decode-time delta added to the
accumulated decode time — with the sample's fields written into the
output record on the way. -/
theorem nsOuter_skip_zero (t : Track) (st : Int) (r : Mp4videoRead)
    (out : VideoSampleInfo) (c : Chunk) (s : Sample)
    (hc : t.Chunks[r.chunkIdx]? = some c) (hse : r.sampleEnd ≠ 0)
    (hlt : r.sampleIdx < r.sampleEnd)
    (hs : t.Samples[r.sampleIdx]? = some s) (hz : s.Size = 0) :
    nsOuter t st r out =
      nsOuter t st (advanceSample r s) (writeSample r s st out) := by
  have hclen : r.chunkIdx < t.Chunks.length := by
    rcases List.getElem?_eq_some.1 hc with ⟨h1, -⟩
    exact h1
  obtain ⟨k, hk⟩ : ∃ k, t.Chunks.length - r.chunkIdx = k + 1 :=
    ⟨t.Chunks.length - r.chunkIdx - 1, by omega⟩
  obtain ⟨m, hm⟩ : ∃ m, r.sampleEnd - r.sampleIdx = m + 1 :=
    ⟨r.sampleEnd - r.sampleIdx - 1, by omega⟩
  have hcheq : chunkEnter r c = r := by rw [chunkEnter, if_neg hse]
  have hlhs : nsOuter t st r out =
      nsOuterGo t st (k + 1) r out := by
    rw [nsOuter, hk]
  have hrhs : nsOuter t st (advanceSample r s) (writeSample r s st out) =
      nsOuterGo t st (k + 1) (advanceSample r s) (writeSample r s st out) := by
    rw [nsOuter, advanceSample_chunkIdx, hk]
  rw [hlhs, hrhs, nsOuterGo, nsOuterGo]
  rw [show (advanceSample r s).chunkIdx = r.chunkIdx from rfl, hc]
  simp only []
  have hcheq2 : chunkEnter (advanceSample r s) c = advanceSample r s := by
    rw [chunkEnter, if_neg]
    rw [advanceSample_sampleEnd]
    exact hse
  rw [hcheq, hcheq2]
  have hfuel1 : r.sampleEnd - r.sampleIdx = m + 1 := hm
  have hfuel2 : (advanceSample r s).sampleEnd - (advanceSample r s).sampleIdx
      = m := by
    rw [advanceSample_sampleEnd, advanceSample_sampleIdx]
    omega
  rw [hfuel1, hfuel2]
  rw [show nsInnerGo t st (m + 1) r out =
      nsInnerGo t st m (advanceSample r s) (writeSample r s st out) from ?_]
  · rw [nsInnerGo, hs]
    simp only [hz]
    rw [if_neg (by omega)]

/-- Unfolding of `nextSample` when a track is selected. -/
theorem nextSample_eq (v : Mp4State) (t : Track) (out : VideoSampleInfo)
    (ht : v.track = some t) :
    nextSample v out =
      ((nsOuter t v.starttime v.read
          { out with NalLengthSize := nalLengthOf t }).1,
        { v with read := (nsOuter t v.starttime v.read
          { out with NalLengthSize := nalLengthOf t }).2.1 },
        (nsOuter t v.starttime v.read
          { out with NalLengthSize := nalLengthOf t }).2.2) := by
  simp only [nextSample, ht]

/-- From a chunk boundary (`sampleEnd = 0`), `NextSample` normalizes the
segment and visits the chunk's first sample: it is emitted if its size is
positive and skipped otherwise, and in both cases its record is written
with the chunk's base data offset. -/
theorem nsOuter_enter_step (t : Track) (st : Int) (r : Mp4videoRead)
    (out : VideoSampleInfo) (c : Chunk) (s : Sample)
    (hse : r.sampleEnd = 0) (hc : t.Chunks[r.chunkIdx]? = some c)
    (hspc : 0 < c.SamplesPerChunk) (hs : t.Samples[r.sampleIdx]? = some s) :
    nsOuter t st r out =
      if 0 < s.Size then
        (.ok (), advanceSample (chunkEnter r c) s,
          writeSample (chunkEnter r c) s st out)
      else
        nsOuter t st (advanceSample (chunkEnter r c) s)
          (writeSample (chunkEnter r c) s st out) := by
  have hclen : r.chunkIdx < t.Chunks.length := by
    rcases List.getElem?_eq_some.1 hc with ⟨h1, -⟩
    exact h1
  obtain ⟨k, hk⟩ : ∃ k, t.Chunks.length - r.chunkIdx = k + 1 :=
    ⟨t.Chunks.length - r.chunkIdx - 1, by omega⟩
  obtain ⟨m, hm⟩ : ∃ m, c.SamplesPerChunk = m + 1 :=
    ⟨c.SamplesPerChunk - 1, by omega⟩
  have hE : chunkEnter r c =
      { r with
        sampleEnd := r.sampleIdx + c.SamplesPerChunk
        dataOffset := (c.DataOffset : Int) } := by
    rw [chunkEnter, if_pos hse]
  have hfuel1 : (chunkEnter r c).sampleEnd - (chunkEnter r c).sampleIdx
      = m + 1 := by
    rw [hE]
    simp only []
    omega
  have hsE : t.Samples[(chunkEnter r c).sampleIdx]? = some s := by
    rw [chunkEnter_sampleIdx]
    exact hs
  have hlhs : nsOuter t st r out = nsOuterGo t st (k + 1) r out := by
    rw [nsOuter, hk]
  rw [hlhs, nsOuterGo, hc]
  simp only []
  rw [hfuel1, nsInnerGo, hsE]
  simp only []
  by_cases hz : 0 < s.Size
  · rw [if_pos hz, if_pos hz]
  · rw [if_neg hz, if_neg hz]
    have hrhs : nsOuter t st (advanceSample (chunkEnter r c) s)
        (writeSample (chunkEnter r c) s st out) =
        nsOuterGo t st (k + 1) (advanceSample (chunkEnter r c) s)
          (writeSample (chunkEnter r c) s st out) := by
      rw [nsOuter, advanceSample_chunkIdx, chunkEnter_chunkIdx, hk]
    rw [hrhs, nsOuterGo]
    rw [show (advanceSample (chunkEnter r c) s).chunkIdx = r.chunkIdx by
      rw [advanceSample_chunkIdx, chunkEnter_chunkIdx]]
    rw [hc]
    simp only []
    have hcheq2 : chunkEnter (advanceSample (chunkEnter r c) s) c =
        advanceSample (chunkEnter r c) s := by
      rw [chunkEnter, if_neg]
      rw [advanceSample_sampleEnd, hE]
      simp only []
      omega
    rw [hcheq2]
    have hfuel2 : (advanceSample (chunkEnter r c) s).sampleEnd -
        (advanceSample (chunkEnter r c) s).sampleIdx = m := by
      rw [advanceSample_sampleEnd, advanceSample_sampleIdx, hE]
      simp only []
      omega
    rw [hfuel2]

/-- C2: for every selected track, `NextSample` never yields a record of
size 0; a zero-size sample is skipped while the sample index, data offset
and accumulated decode time still advance (so its decode-time delta is
reflected in later composition timestamps); and when the chunk table is
exhausted without an emission, `NextSample` returns the distinguished
`ErrEndOfStream` sentinel, not a generic failure. -/
theorem nextSample_zero_size_skip (t : Track) (st : Int) :
    (∀ (r : Mp4videoRead) (out : VideoSampleInfo) (rf : Mp4videoRead)
      (outf : VideoSampleInfo),
      nsOuter t st r out = (.ok (), rf, outf) → 0 < outf.size) ∧
    (∀ (r : Mp4videoRead) (out : VideoSampleInfo) (c : Chunk) (s : Sample),
      t.Chunks[r.chunkIdx]? = some c → r.sampleEnd ≠ 0 →
      r.sampleIdx < r.sampleEnd → t.Samples[r.sampleIdx]? = some s →
      s.Size = 0 →
      nsOuter t st r out =
        nsOuter t st (advanceSample r s) (writeSample r s st out) ∧
      (advanceSample r s).sampleIdx = r.sampleIdx + 1 ∧
      (advanceSample r s).dataOffset = r.dataOffset + (s.Size : Int) ∧
      (advanceSample r s).decodingTime = r.decodingTime + (s.TimeDelta : Int)) ∧
    (∀ (v : Mp4State) (out : VideoSampleInfo) (e : Mp4Error),
      v.track = some t → (nextSample v out).1 = .error e →
      e = Mp4Error.endOfStream ∧
      t.Chunks.length ≤ (nextSample v out).2.1.read.chunkIdx) := by
  refine ⟨?_, ?_, ?_⟩
  · intro r out rf outf h
    obtain ⟨-, -, -, -, ⟨s, -, hpos, hsz⟩, -⟩ :=
      nsOuterGo_ok_spec t st _ r out rf outf h
    rw [hsz]
    exact hpos
  · intro r out c s hc hse hlt hs hz
    exact ⟨nsOuter_skip_zero t st r out c s hc hse hlt hs hz, rfl, rfl, rfl⟩
  · intro v out e ht herr
    rw [nextSample_eq v t out ht] at herr ⊢
    rcases h : nsOuter t v.starttime v.read
        { out with NalLengthSize := nalLengthOf t } with ⟨res, rr, oo⟩
    rw [h] at herr
    simp only [] at herr
    subst herr
    rw [nsOuter] at h
    obtain ⟨he, hcx⟩ := nsOuterGo_err_spec t v.starttime _ _ _ _ _ _ h
    exact ⟨he, hcx (by omega)⟩

/-- Instance of `nextSample_zero_size_skip`: the first `trackA` emission
has positive size; the skip equation holds at the zero-size sample of
`track7`; `state10` hits the chunk-table end and reports the sentinel. -/
theorem nextSample_zero_size_skip_witness :
    0 < (nsOuter trackA 0 initRead emptyInfo).2.2.size ∧
    nsOuter track7 0 ⟨0, 1, 3, 10, 1⟩ ⟨0, 1, 0, 10, 0, 0⟩ =
      nsOuter track7 0
        (advanceSample ⟨0, 1, 3, 10, 1⟩ ⟨0, 10, 0⟩)
        (writeSample ⟨0, 1, 3, 10, 1⟩ ⟨0, 10, 0⟩ 0 ⟨0, 1, 0, 10, 0, 0⟩) ∧
    track10.Chunks.length ≤
      (nextSample state10 emptyInfo).2.1.read.chunkIdx := by
  refine ⟨?_, ?_, ?_⟩
  · exact (nextSample_zero_size_skip trackA 0).1 initRead emptyInfo
      ⟨0, 1, 2, 3000, 110⟩ ⟨100, 10, 0, 3000, 0, 0⟩ rfl
  · exact ((nextSample_zero_size_skip track7 0).2.1 ⟨0, 1, 3, 10, 1⟩
      ⟨0, 1, 0, 10, 0, 0⟩ ⟨0, 3⟩ ⟨0, 10, 0⟩ rfl (by decide) (by decide)
      rfl rfl).1
  · exact ((nextSample_zero_size_skip track10 0).2.2 state10 emptyInfo
      Mp4Error.endOfStream rfl rfl).2

/-- C3: offset continuity under sequential iteration — two consecutive
emissions inside one chunk satisfy `offset2 = offset1 + size1` (any
samples skipped between them have size zero, so their sizes are part of
that accumulation); an emission reached from a chunk boundary carries
some chunk's base data offset; and the first sample visited in a chunk,
emitted or skipped, is written with exactly the chunk's base data
offset. -/
theorem nextSample_offset_continuity (t : Track) (st : Int) :
    (∀ (r : Mp4videoRead) (out : VideoSampleInfo) (r1 : Mp4videoRead)
      (out1 : VideoSampleInfo) (r2 : Mp4videoRead) (out2 : VideoSampleInfo),
      nsOuter t st r out = (.ok (), r1, out1) →
      nsOuter t st r1 out1 = (.ok (), r2, out2) →
      r2.chunkIdx = r1.chunkIdx →
      out2.offset = out1.offset + (out1.size : Int) ∧
      ∀ j, r1.sampleIdx ≤ j → j + 1 < r2.sampleIdx →
        ∃ s0, t.Samples[j]? = some s0 ∧ s0.Size = 0) ∧
    (∀ (r : Mp4videoRead) (out : VideoSampleInfo) (r1 : Mp4videoRead)
      (out1 : VideoSampleInfo),
      r.sampleEnd = 0 → nsOuter t st r out = (.ok (), r1, out1) →
      ∃ c, t.Chunks[r1.chunkIdx]? = some c ∧
        out1.offset = (c.DataOffset : Int)) ∧
    (∀ (r : Mp4videoRead) (out : VideoSampleInfo) (c : Chunk) (s : Sample),
      r.sampleEnd = 0 → t.Chunks[r.chunkIdx]? = some c →
      0 < c.SamplesPerChunk → t.Samples[r.sampleIdx]? = some s →
      (writeSample (chunkEnter r c) s st out).offset = (c.DataOffset : Int) ∧
      nsOuter t st r out =
        if 0 < s.Size then
          (.ok (), advanceSample (chunkEnter r c) s,
            writeSample (chunkEnter r c) s st out)
        else
          nsOuter t st (advanceSample (chunkEnter r c) s)
            (writeSample (chunkEnter r c) s st out)) := by
  refine ⟨?_, ?_, ?_⟩
  · intro r out r1 out1 r2 out2 h1 h2 hcc
    obtain ⟨-, -, g3, -, -, -, g7, -⟩ := nsOuterGo_ok_spec t st _ r out r1 out1 h1
    obtain ⟨-, -, -, -, -, -, -, -, g9', g10', -⟩ :=
      nsOuterGo_ok_spec t st _ r1 out1 r2 out2 h2
    refine ⟨?_, g9'⟩
    have := g10' hcc (by omega)
    rw [this, g7]
  · intro r out r1 out1 hse h
    obtain ⟨-, -, -, -, -, -, -, -, -, -, g11⟩ :=
      nsOuterGo_ok_spec t st _ r out r1 out1 h
    exact g11 hse
  · intro r out c s hse hc hspc hs
    refine ⟨?_, nsOuter_enter_step t st r out c s hse hc hspc hs⟩
    rw [writeSample]
    simp only [chunkEnter, if_pos hse]

/-- Instance of `nextSample_offset_continuity` on `trackA`: consecutive
emissions in the second chunk, the chunk-boundary emission at the second
chunk's base offset 300, and the first chunk's first visit written at
offset 100. -/
theorem nextSample_offset_continuity_witness :
    ((⟨320, 30, 0, 3000, 3, 9000⟩ : VideoSampleInfo).offset =
      (⟨300, 20, 0, 3000, 2, 6000⟩ : VideoSampleInfo).offset +
        ((⟨300, 20, 0, 3000, 2, 6000⟩ : VideoSampleInfo).size : Int)) ∧
    (∃ c, trackA.Chunks[(1 : Nat)]? = some c ∧
      (⟨300, 20, 0, 3000, 2, 6000⟩ : VideoSampleInfo).offset =
        (c.DataOffset : Int)) ∧
    (writeSample (chunkEnter initRead ⟨100, 2⟩) ⟨10, 3000, 0⟩ 0
      emptyInfo).offset = ((100 : Nat) : Int) := by
  refine ⟨?_, ?_, ?_⟩
  · exact ((nextSample_offset_continuity trackA 0).1
      ⟨1, 2, 0, 6000, 110⟩ ⟨0, 1, 0, 10, 0, 0⟩
      ⟨1, 3, 4, 9000, 320⟩ ⟨300, 20, 0, 3000, 2, 6000⟩
      ⟨1, 4, 4, 12000, 350⟩ ⟨320, 30, 0, 3000, 3, 9000⟩
      rfl rfl rfl).1
  · have := (nextSample_offset_continuity trackA 0).2.1
      ⟨1, 2, 0, 6000, 110⟩ ⟨0, 1, 0, 10, 0, 0⟩
      ⟨1, 3, 4, 9000, 320⟩ ⟨300, 20, 0, 3000, 2, 6000⟩ rfl rfl
    exact this
  · exact ((nextSample_offset_continuity trackA 0).2.2 initRead emptyInfo
      ⟨100, 2⟩ ⟨10, 3000, 0⟩ rfl rfl (by decide) rfl).1

/-- C7 (amended): between two consecutively yielded records the sample
number strictly increases, and every sample index strictly between the
two numbers belongs to a zero-size (skipped) sample — so the number
increases by exactly 1 whenever no zero-size sample intervenes. -/
theorem nextSample_number_gap (t : Track) (st : Int) (r : Mp4videoRead)
    (out : VideoSampleInfo) (r1 : Mp4videoRead) (out1 : VideoSampleInfo)
    (r2 : Mp4videoRead) (out2 : VideoSampleInfo)
    (h1 : nsOuter t st r out = (.ok (), r1, out1))
    (h2 : nsOuter t st r1 out1 = (.ok (), r2, out2)) :
    out1.Number < out2.Number ∧
    ∀ j : Nat, out1.Number < (j : Int) → (j : Int) < out2.Number →
      ∃ s, t.Samples[j]? = some s ∧ s.Size = 0 := by
  obtain ⟨-, -, -, g4, -, g6, -, -⟩ := nsOuterGo_ok_spec t st _ r out r1 out1 h1
  obtain ⟨-, -, -, g4', -, g6', -, g8', g9', -⟩ :=
    nsOuterGo_ok_spec t st _ r1 out1 r2 out2 h2
  constructor
  · rw [g6, g6']
    omega
  · intro j hj1 hj2
    rw [g6] at hj1
    rw [g6'] at hj2
    exact g9' j (by omega) (by omega)

/-- The claim "`Number` increases by exactly 1 between successive
yields" fails on `track7`: the two sequential emissions carry numbers 0
and 2, because the zero-size sample at index 1 is skipped but still
consumes a sample number. -/
theorem nextSample_number_gap_cex :
    nsOuter track7 0 initRead emptyInfo =
      (Except.ok (), (⟨0, 1, 3, 10, 1⟩ : Mp4videoRead),
        (⟨0, 1, 0, 10, 0, 0⟩ : VideoSampleInfo)) ∧
    nsOuter track7 0 ⟨0, 1, 3, 10, 1⟩ ⟨0, 1, 0, 10, 0, 0⟩ =
      (Except.ok (), (⟨0, 3, 3, 30, 2⟩ : Mp4videoRead),
        (⟨1, 1, 0, 10, 2, 20⟩ : VideoSampleInfo)) ∧
    ¬ ((⟨1, 1, 0, 10, 2, 20⟩ : VideoSampleInfo).Number =
        (⟨0, 1, 0, 10, 0, 0⟩ : VideoSampleInfo).Number + 1) := by
  refine ⟨rfl, rfl, by decide⟩

/-- Instance of `nextSample_number_gap` on `track7`: the yielded numbers
0 and 2 strictly increase and the only index between them holds a
zero-size sample. -/
theorem nextSample_number_gap_witness :
    (⟨0, 1, 0, 10, 0, 0⟩ : VideoSampleInfo).Number <
      (⟨1, 1, 0, 10, 2, 20⟩ : VideoSampleInfo).Number ∧
    ∀ j : Nat, (⟨0, 1, 0, 10, 0, 0⟩ : VideoSampleInfo).Number < (j : Int) →
      (j : Int) < (⟨1, 1, 0, 10, 2, 20⟩ : VideoSampleInfo).Number →
      ∃ s, track7.Samples[j]? = some s ∧ s.Size = 0 :=
  nextSample_number_gap track7 0 initRead emptyInfo
    ⟨0, 1, 3, 10, 1⟩ ⟨0, 1, 0, 10, 0, 0⟩
    ⟨0, 3, 3, 30, 2⟩ ⟨1, 1, 0, 10, 2, 20⟩ rfl rfl

/-- C10 (implicit): `NextSample` may mutate the caller's record even when
it yields no sample — with a selected track it always assigns
`NalLengthSize`, and a trailing zero-size sample's fields are written
into the record before `ErrEndOfStream` is returned, so the record is not
guaranteed unchanged on end-of-stream. -/
theorem nextSample_mutates_record :
    (∀ (v : Mp4State) (tr : Track) (out : VideoSampleInfo),
      v.track = some tr →
      (nextSample v out).2.2.NalLengthSize = nalLengthOf tr) ∧
    (nextSample state10 emptyInfo).1 = Except.error Mp4Error.endOfStream ∧
    (nextSample state10 emptyInfo).2.2 =
      (⟨11, 0, 4, 7, 1, 8⟩ : VideoSampleInfo) ∧
    ¬ ((⟨11, 0, 4, 7, 1, 8⟩ : VideoSampleInfo) = emptyInfo) := by
  refine ⟨?_, rfl, rfl, by decide⟩
  intro v tr out ht
  rw [nextSample_eq v tr out ht]
  simp only []
  rw [nsOuter, nsOuterGo_nal]

/-- Instance of `nextSample_mutates_record`: the end-of-stream call on
`state10` still reports `track10`'s NAL length size in the record. -/
theorem nextSample_mutates_record_witness :
    (nextSample state10 emptyInfo).2.2.NalLengthSize = nalLengthOf track10 :=
  nextSample_mutates_record.1 state10 track10 emptyInfo rfl

/-- The `force`/cursor decision applied to a matching sample index and
candidate keyframe position (src/mp4read.go:382-386). -/
def seekDecision (force : Bool) (read : Mp4videoRead)
    (p : Nat × Mp4videoRead) : SeekHit :=
  if force = false ∧ p.2.sampleIdx ≤ read.sampleIdx ∧
      read.sampleIdx ≤ p.1 + 1
  then SeekHit.notMoved else SeekHit.moved p.2

/-- The inner `Seek` loop is the spec-side match finder followed by the
`force`/cursor decision at the matching sample. -/
theorem seekInner_lockstep (t : Track) (stss : List Nat) (force : Bool)
    (read : Mp4videoRead) (ts : Int) (ci ei : Nat) :
    ∀ (n : Nat) (offset : Int) (acc : SeekAcc),
    seekInnerGo t stss force read ts ci ei n offset acc =
      ((seekFindInner t stss ts ci ei n offset acc).1.map
          (seekDecision force read),
        (seekFindInner t stss ts ci ei n offset acc).2) := by
  intro n
  induction n with
  | zero => intro offset acc; rfl
  | succ n ih =>
    intro offset acc
    rw [seekInnerGo, seekFindInner]
    cases hs : t.Samples[acc.sampleIndex]? with
    | none => rfl
    | some s =>
      simp only []
      by_cases hz : s.Size = 0
      · simp only [if_pos hz]
        exact ih offset _
      · simp only [if_neg hz]
        by_cases hcond : stss[acc.stssIdx]? =
            some ((acc.sampleIndex + 1) % 4294967296)
        · simp only [if_pos hcond]
          by_cases hmatch : ts <
              ({ acc with
                  stssIdx := acc.stssIdx + 1
                  idr := { chunkIdx := ci, sampleIdx := acc.sampleIndex,
                           sampleEnd := ei, decodingTime := acc.decodingTime,
                           dataOffset := offset } } : SeekAcc).decodingTime +
                (s.TimeDelta : Int) + s.CompositionTimeOffset
          · simp only [if_pos hmatch]
            split <;> rename_i hdec <;> simp [seekDecision, hdec]
          · simp only [if_neg hmatch]
            exact ih _ _
        · simp only [if_neg hcond]
          by_cases hmatch : ts < acc.decodingTime + (s.TimeDelta : Int) +
              s.CompositionTimeOffset
          · simp only [if_pos hmatch]
            split <;> rename_i hdec <;> simp [seekDecision, hdec]
          · simp only [if_neg hmatch]
            exact ih _ _

/-- The chunk loop of `Seek` is the spec-side match finder followed by
the `force`/cursor decision at the matching sample. -/
theorem seekOuter_lockstep (t : Track) (stss : List Nat) (force : Bool)
    (read : Mp4videoRead) (ts : Int) :
    ∀ (chunks : List Chunk) (ci : Nat) (acc : SeekAcc),
    seekOuterGo t stss force read ts chunks ci acc =
      ((seekFindOuter t stss ts chunks ci acc).1.map
          (seekDecision force read),
        (seekFindOuter t stss ts chunks ci acc).2) := by
  intro chunks
  induction chunks with
  | nil => intro ci acc; rfl
  | cons chunk rest ih =>
    intro ci acc
    rw [seekOuterGo, seekFindOuter]
    rw [seekInner_lockstep]
    rcases hfi : seekFindInner t stss ts ci (acc.sampleIndex +
        chunk.SamplesPerChunk) (acc.sampleIndex + chunk.SamplesPerChunk -
        acc.sampleIndex) (chunk.DataOffset : Int) acc with ⟨hit, off1, acc1⟩
    cases hit with
    | none => exact ih (ci + 1) acc1
    | some p => rfl

/-- The full `Seek` scan is the spec-side match finder followed by the
decision. -/
theorem seekScan_lockstep (t : Track) (stss : List Nat) (force : Bool)
    (read : Mp4videoRead) (ts : Int) :
    (seekScan t stss force read ts).1 =
      (seekFind t stss ts).map (seekDecision force read) := by
  rw [seekScan, seekFind, seekOuter_lockstep]

/-- C1: when the seek scan finds a matching sample (the first
non-zero-size sample in decode order whose accumulated decode time plus
composition offset strictly exceeds `timestamp + _starttime`), `Seek`
returns `false` without touching the state iff `force` is unset and the
cursor's sample index lies in `[candidate.sampleIdx, matchIdx + 1]`, and
otherwise installs the remembered candidate keyframe position as the
cursor and returns `true`. -/
theorem seek_gop_decision (v : Mp4State) (fid : Except String (List Nat))
    (t : Track) (stss : List Nat) (timestamp : Int) (force : Bool)
    (m : Nat) (idr : Mp4videoRead)
    (ht : v.track = some t) (hstss : v.stss = some stss)
    (hm : seekFind t stss (timestamp + v.starttime) = some (m, idr)) :
    seek v fid timestamp force =
      if force = false ∧ idr.sampleIdx ≤ v.read.sampleIdx ∧
          v.read.sampleIdx ≤ m + 1
      then (Except.ok false, v)
      else (Except.ok true, { v with read := idr }) := by
  have hscan : (seekScan t stss force v.read (timestamp + v.starttime)).1 =
      some (seekDecision force v.read (m, idr)) := by
    rw [seekScan_lockstep, hm]
    rfl
  by_cases hdec : force = false ∧ idr.sampleIdx ≤ v.read.sampleIdx ∧
      v.read.sampleIdx ≤ m + 1
  · simp only [seek, ht, hstss, seekWith, hscan, seekDecision, if_pos hdec]
  · simp only [seek, ht, hstss, seekWith, hscan, seekDecision, if_neg hdec]

/-- Instance of `seek_gop_decision` on `trackA`: from the initial cursor
a seek to 7000 moves to the candidate keyframe at sample index 2; from a
cursor already inside that keyframe's segment, the non-forced seek is
suppressed and the state is untouched. -/
theorem seek_gop_decision_witness :
    seek stateA (Except.ok []) 7000 false =
      (Except.ok true, { stateA with read := ⟨1, 2, 4, 3000, 300⟩ }) ∧
    seek { stateA with read := ⟨1, 3, 4, 6000, 320⟩ } (Except.ok [])
        7000 false =
      (Except.ok false, { stateA with read := ⟨1, 3, 4, 6000, 320⟩ }) := by
  constructor
  · have h := seek_gop_decision stateA (Except.ok []) trackA stssA 7000
      false 3 ⟨1, 2, 4, 3000, 300⟩ rfl rfl rfl
    rw [h]
    rfl
  · have h := seek_gop_decision { stateA with read := ⟨1, 3, 4, 6000, 320⟩ }
      (Except.ok []) trackA stssA 7000 false 3 ⟨1, 2, 4, 3000, 300⟩
      rfl rfl rfl
    rw [h]
    rfl

/-- A `Seek` attempt that fails (any error) through `seekWith` returns
the state it was given, unchanged. -/
theorem seekWith_error_state (v : Mp4State) (t : Track) (stss : List Nat)
    (timestamp : Int) (force : Bool) (e : Mp4Error)
    (h : (seekWith v t stss timestamp force).1 = .error e) :
    (seekWith v t stss timestamp force).2 = v := by
  cases hhit : (seekScan t stss force v.read (timestamp + v.starttime)).1 with
  | none => simp only [seekWith, hhit]
  | some hit =>
    cases hit with
    | notMoved => simp only [seekWith, hhit]
    | moved idr =>
      simp only [seekWith, hhit] at h
      exact absurd h (by simp)

/-- C6: whenever `Seek` returns an error — no selected track, an I/O
failure during the lazy keyframe-index construction, or `OutOfRange`
after a scan with no matching sample — the cursor state is exactly what
it was before the call. -/
theorem seek_error_preserves_cursor (v : Mp4State)
    (fid : Except String (List Nat)) (timestamp : Int) (force : Bool)
    (e : Mp4Error) (h : (seek v fid timestamp force).1 = .error e) :
    (seek v fid timestamp force).2.read = v.read := by
  cases ht : v.track with
  | none => simp only [seek, ht]
  | some t =>
    cases hstss : v.stss with
    | some stss =>
      simp only [seek, ht, hstss] at h ⊢
      rw [seekWith_error_state v t stss timestamp force e h]
    | none =>
      cases hfid : fid with
      | error msg => simp only [seek, ht, hstss, hfid]
      | ok idrs =>
        simp only [seek, ht, hstss, hfid] at h ⊢
        rw [seekWith_error_state _ t _ timestamp force e h]

/-- Instance of `seek_error_preserves_cursor`: an out-of-range seek on
`trackA` leaves the cursor untouched. -/
theorem seek_error_preserves_cursor_witness :
    (seek { stateA with read := ⟨0, 1, 2, 3000, 110⟩ } (Except.ok [])
        1000000 false).2.read = (⟨0, 1, 2, 3000, 110⟩ : Mp4videoRead) :=
  seek_error_preserves_cursor { stateA with read := ⟨0, 1, 2, 3000, 110⟩ }
    (Except.ok []) 1000000 false (Mp4Error.outOfRange 1000000) rfl

theorem zeroWipe_getElem (t : Track) (j : Nat) :
    (zeroWipe t).Samples[j]? = (t.Samples[j]?).map zeroWipeSample := by
  simp [zeroWipe]

/-- The inner `Seek` loop reads nothing but the `Size` field of a
zero-size sample, so wiping the timing fields of zero-size samples does
not change it. -/
theorem seekInner_zeroWipe (t : Track) (stss : List Nat) (force : Bool)
    (read : Mp4videoRead) (ts : Int) (ci ei : Nat) :
    ∀ (n : Nat) (offset : Int) (acc : SeekAcc),
    seekInnerGo (zeroWipe t) stss force read ts ci ei n offset acc =
      seekInnerGo t stss force read ts ci ei n offset acc := by
  intro n
  induction n with
  | zero => intro offset acc; rfl
  | succ n ih =>
    intro offset acc
    rw [seekInnerGo, seekInnerGo]
    cases hs : t.Samples[acc.sampleIndex]? with
    | none =>
      rw [zeroWipe_getElem, hs]
      rfl
    | some s =>
      rw [zeroWipe_getElem, hs]
      simp only [Option.map_some']
      by_cases hz : s.Size = 0
      · have hw : zeroWipeSample s = ⟨s.Size, 0, 0⟩ := by
          rw [zeroWipeSample, if_pos hz]
        rw [hw]
        simp only [if_pos hz]
        exact ih offset _
      · have hw : zeroWipeSample s = s := by
          rw [zeroWipeSample, if_neg hz]
        rw [hw]
        simp only [if_neg hz]
        by_cases hcond : stss[acc.stssIdx]? =
            some ((acc.sampleIndex + 1) % 4294967296)
        · simp only [if_pos hcond]
          by_cases hmatch : ts <
              ({ acc with
                  stssIdx := acc.stssIdx + 1
                  idr := { chunkIdx := ci, sampleIdx := acc.sampleIndex,
                           sampleEnd := ei, decodingTime := acc.decodingTime,
                           dataOffset := offset } } : SeekAcc).decodingTime +
                (s.TimeDelta : Int) + s.CompositionTimeOffset
          · simp only [if_pos hmatch]
          · simp only [if_neg hmatch]
            exact ih _ _
        · simp only [if_neg hcond]
          by_cases hmatch : ts < acc.decodingTime + (s.TimeDelta : Int) +
              s.CompositionTimeOffset
          · simp only [if_pos hmatch]
          · simp only [if_neg hmatch]
            exact ih _ _

/-- The chunk loop of `Seek` is likewise invariant under wiping the
timing fields of zero-size samples. -/
theorem seekOuter_zeroWipe (t : Track) (stss : List Nat) (force : Bool)
    (read : Mp4videoRead) (ts : Int) :
    ∀ (chunks : List Chunk) (ci : Nat) (acc : SeekAcc),
    seekOuterGo (zeroWipe t) stss force read ts chunks ci acc =
      seekOuterGo t stss force read ts chunks ci acc := by
  intro chunks
  induction chunks with
  | nil => intro ci acc; rfl
  | cons chunk rest ih =>
    intro ci acc
    rw [seekOuterGo, seekOuterGo, seekInner_zeroWipe]
    rcases hfi : seekInnerGo t stss force read ts ci (acc.sampleIndex +
        chunk.SamplesPerChunk) (acc.sampleIndex + chunk.SamplesPerChunk -
        acc.sampleIndex) (chunk.DataOffset : Int) acc with ⟨hit, off1, acc1⟩
    cases hit with
    | none => exact ih (ci + 1) acc1
    | some p => rfl

/-- The candidate-keyframe invariant of the inner `Seek` loop: the
remembered `idr` is the zero value or points at a non-zero-size sample,
and a hit is reported with the scan cursor on a non-zero-size sample. -/
theorem seekInner_acc_spec (t : Track) (stss : List Nat) (force : Bool)
    (read : Mp4videoRead) (ts : Int) (ci ei : Nat) :
    ∀ (n : Nat) (offset : Int) (acc : SeekAcc),
    (acc.idr = initRead ∨
      ∃ s, t.Samples[acc.idr.sampleIdx]? = some s ∧ 0 < s.Size) →
    ((seekInnerGo t stss force read ts ci ei n offset acc).2.2.idr =
        initRead ∨
      ∃ s, t.Samples[(seekInnerGo t stss force read ts ci ei n offset
        acc).2.2.idr.sampleIdx]? = some s ∧ 0 < s.Size) ∧
    (∀ hit, (seekInnerGo t stss force read ts ci ei n offset acc).1 =
        some hit →
      ∃ s, t.Samples[(seekInnerGo t stss force read ts ci ei n offset
        acc).2.2.sampleIndex]? = some s ∧ 0 < s.Size) := by
  intro n
  induction n with
  | zero =>
    intro offset acc hP
    refine ⟨hP, ?_⟩
    intro hit h
    simp only [seekInnerGo] at h
    exact Option.noConfusion h
  | succ n ih =>
    intro offset acc hP
    rw [seekInnerGo]
    cases hs : t.Samples[acc.sampleIndex]? with
    | none =>
      refine ⟨hP, ?_⟩
      intro hit h
      simp only [] at h
      exact Option.noConfusion h
    | some s =>
      simp only []
      by_cases hz : s.Size = 0
      · simp only [if_pos hz]
        exact ih offset _ hP
      · simp only [if_neg hz]
        by_cases hcond : stss[acc.stssIdx]? =
            some ((acc.sampleIndex + 1) % 4294967296)
        · simp only [if_pos hcond]
          by_cases hmatch : ts <
              ({ acc with
                  stssIdx := acc.stssIdx + 1
                  idr := { chunkIdx := ci, sampleIdx := acc.sampleIndex,
                           sampleEnd := ei, decodingTime := acc.decodingTime,
                           dataOffset := offset } } : SeekAcc).decodingTime +
                (s.TimeDelta : Int) + s.CompositionTimeOffset
          · simp only [if_pos hmatch]
            constructor
            · split
              · exact Or.inr ⟨s, hs, by omega⟩
              · exact Or.inr ⟨s, hs, by omega⟩
            · intro hit h
              split
              · exact ⟨s, hs, by omega⟩
              · exact ⟨s, hs, by omega⟩
          · simp only [if_neg hmatch]
            exact ih _ _ (Or.inr ⟨s, hs, by omega⟩)
        · simp only [if_neg hcond]
          by_cases hmatch : ts < acc.decodingTime + (s.TimeDelta : Int) +
              s.CompositionTimeOffset
          · simp only [if_pos hmatch]
            constructor
            · split
              · exact hP
              · exact hP
            · intro hit h
              split
              · exact ⟨s, hs, by omega⟩
              · exact ⟨s, hs, by omega⟩
          · simp only [if_neg hmatch]
            exact ih _ _ hP

/-- The candidate-keyframe invariant lifted to the chunk loop of
`Seek`. -/
theorem seekOuter_acc_spec (t : Track) (stss : List Nat) (force : Bool)
    (read : Mp4videoRead) (ts : Int) :
    ∀ (chunks : List Chunk) (ci : Nat) (acc : SeekAcc),
    (acc.idr = initRead ∨
      ∃ s, t.Samples[acc.idr.sampleIdx]? = some s ∧ 0 < s.Size) →
    ((seekOuterGo t stss force read ts chunks ci acc).2.idr = initRead ∨
      ∃ s, t.Samples[(seekOuterGo t stss force read ts chunks ci
        acc).2.idr.sampleIdx]? = some s ∧ 0 < s.Size) ∧
    (∀ hit, (seekOuterGo t stss force read ts chunks ci acc).1 = some hit →
      ∃ s, t.Samples[(seekOuterGo t stss force read ts chunks ci
        acc).2.sampleIndex]? = some s ∧ 0 < s.Size) := by
  intro chunks
  induction chunks with
  | nil =>
    intro ci acc hP
    refine ⟨hP, ?_⟩
    intro hit h
    simp only [seekOuterGo] at h
    exact Option.noConfusion h
  | cons chunk rest ih =>
    intro ci acc hP
    rw [seekOuterGo]
    rcases hfi : seekInnerGo t stss force read ts ci (acc.sampleIndex +
        chunk.SamplesPerChunk) (acc.sampleIndex + chunk.SamplesPerChunk -
        acc.sampleIndex) (chunk.DataOffset : Int) acc with ⟨hit, off1, acc1⟩
    obtain ⟨hi1, hi2⟩ := seekInner_acc_spec t stss force read ts ci
      (acc.sampleIndex + chunk.SamplesPerChunk)
      (acc.sampleIndex + chunk.SamplesPerChunk - acc.sampleIndex)
      (chunk.DataOffset : Int) acc hP
    rw [hfi] at hi1 hi2
    cases hit with
    | none => exact ih (ci + 1) acc1 hi1
    | some p =>
      simp only []
      refine ⟨hi1, ?_⟩
      intro hit2 h2
      exact hi2 p rfl

/-- C4 (amended): the `Seek` scan skips zero-size samples entirely — its
outcome is unchanged when the decode-time delta and composition offset of
every zero-size sample are erased (so those deltas are never added to the
accumulated decode time), zero-size samples never become the remembered
candidate keyframe, and the matching sample of a hit has non-zero
size. -/
theorem seek_scan_zero_size (t : Track) (stss : List Nat) (force : Bool)
    (read : Mp4videoRead) (ts : Int) :
    seekScan (zeroWipe t) stss force read ts = seekScan t stss force read ts ∧
    ((seekScan t stss force read ts).2.idr = initRead ∨
      ∃ s, t.Samples[(seekScan t stss force read
        ts).2.idr.sampleIdx]? = some s ∧ 0 < s.Size) ∧
    (∀ hit, (seekScan t stss force read ts).1 = some hit →
      ∃ s, t.Samples[(seekScan t stss force read
        ts).2.sampleIndex]? = some s ∧ 0 < s.Size) := by
  refine ⟨?_, ?_⟩
  · rw [seekScan, seekScan, seekOuter_zeroWipe]
    rfl
  · exact seekOuter_acc_spec t stss force read ts t.Chunks 0 initAcc
      (Or.inl rfl)

/-- The spec's claim that a zero-size sample's decode-time delta is still
added during the `Seek` scan fails on `track4`: its two samples carry
deltas 100 (size 0) and 10, yet after the full scan the accumulated
decode time is 10, not the 110 the claim would demand. -/
theorem seek_zero_delta_cex :
    track4.Samples = [⟨0, 100, 0⟩, ⟨5, 10, 0⟩] ∧
    (seekScan track4 [] false initRead 50).1 = none ∧
    (seekScan track4 [] false initRead 50).2.decodingTime = 10 ∧
    ¬ (seekScan track4 [] false initRead 50).2.decodingTime =
        (track4.Samples.map (fun s => (s.TimeDelta : Int))).sum := by
  refine ⟨rfl, rfl, rfl, by decide⟩

/-- Instance of `seek_scan_zero_size` on `trackA` at timestamp 7000: the
scan outcome is unchanged by wiping, the matched sample (index 3) and the
remembered candidate (index 2) both have non-zero size. -/
theorem seek_scan_zero_size_witness :
    seekScan (zeroWipe trackA) stssA false initRead 7000 =
      seekScan trackA stssA false initRead 7000 ∧
    (∃ s, trackA.Samples[(seekScan trackA stssA false initRead
        7000).2.idr.sampleIdx]? = some s ∧ 0 < s.Size) ∧
    (∃ s, trackA.Samples[(seekScan trackA stssA false initRead
        7000).2.sampleIndex]? = some s ∧ 0 < s.Size) := by
  obtain ⟨h1, h2, h3⟩ := seek_scan_zero_size trackA stssA false initRead 7000
  refine ⟨h1, ?_, ?_⟩
  · cases h2 with
    | inl h => exact absurd h (by decide)
    | inr h => exact h
  · exact h3 (SeekHit.moved ⟨1, 2, 4, 3000, 300⟩) rfl

/-- The spec's concrete start-time scenario does not produce `-3000`:
the very first sample of `c5track` has composition offset 0, so the scan
of `Initialize` includes it in the minimum (value 0) and stops there. -/
theorem initialize_starttime_cex :
    ¬ initializeStarttime c5track.Samples 0 = -3000 := by
  decide

/-- C5 (amended): on the spec's concrete scenario (timescale 90000, 3
chunks of 2 samples, decode deltas all 3000, composition offsets
`[0, 3000, -3000, 0, 3000, -3000]`) `Initialize` computes
`StartTimeOffset = 0`: the scan takes the minimum of accumulated decode
time plus composition offset including the sample it stops at, and it
stops at the first sample, whose composition offset is 0. -/
theorem initialize_starttime_amended :
    initializeStarttime c5track.Samples 0 = 0 ∧
    starttimeScan c5track.Samples 0 2147483647 = 0 := by
  exact ⟨rfl, rfl⟩

/-- `SetVideoTrack` to a different track does not reset the cursor: on
`state8` (cursor mid-stream on track 1), selecting track 2 succeeds but
leaves the cursor record `⟨1, 2, 3, 4, 5⟩` in place. -/
theorem setVideoTrack_cex :
    (setVideoTrack state8 2).1 = Except.ok () ∧
    (setVideoTrack state8 2).2.track = some trackB ∧
    (setVideoTrack state8 2).2.read = (⟨1, 2, 3, 4, 5⟩ : Mp4videoRead) ∧
    ¬ (setVideoTrack state8 2).2.read = initRead := by
  refine ⟨rfl, rfl, rfl, by decide⟩

/-- C8 (amended): every `SetVideoTrack` call discards the keyframe index
and the codec configuration, but leaves the cursor state and the
start-time correction untouched. -/
theorem setVideoTrack_resets (v : Mp4State) (id : Int) :
    (setVideoTrack v id).2.stss = none ∧
    (setVideoTrack v id).2.spspps = none ∧
    (setVideoTrack v id).2.read = v.read ∧
    (setVideoTrack v id).2.starttime = v.starttime := by
  rw [setVideoTrack]
  cases h : findVideoTrack id v.probeTracks with
  | none => exact ⟨rfl, rfl, rfl, rfl⟩
  | some t => exact ⟨rfl, rfl, rfl, rfl⟩

/-- The claim's reuse rule — reuse the caller's buffer whenever its
capacity is at least the size — fails on the code: the source compares
the size against `uint32(cap(buf))` (src/mp4read.go:322), so a caller
buffer of capacity `2^32` wraps to 0 and a 1-byte sample is answered
with a freshly allocated 1-byte buffer although the caller's capacity
suffices. -/
theorem readMdat_cap_wrap_cex :
    (1 : Nat) ≤ (4294967296 : Nat) ∧
    readMdatAtSample [7] MemoryLimitSampleCapacity ⟨0, 1, 0, 0, 0, 0⟩
        ⟨4294967296, []⟩ =
      (Except.ok ⟨1, [7]⟩, true,
        [StreamOp.seekTo 0, StreamOp.readBytes 1]) ∧
    ¬ ((1 : Nat) = 4294967296) := by
  refine ⟨by decide, rfl, by decide⟩

/-- C9 (amended): `ReadMdatAtSample` fails with the capacity error —
performing no stream operation — when the record's size exceeds the
configured limit; otherwise it allocates a fresh buffer exactly when the
caller's capacity, truncated to `uint32` as the source's
`uint32(cap(buf))` does, is insufficient (the fresh buffer sized exactly
to the sample, a reused one keeping the caller's capacity), the buffer
returned on success holds exactly `size` bytes read at `offset`, and the
call succeeds iff the seek target is non-negative and the stream holds
`size` bytes there. -/
theorem readMdatAtSample_spec (stream : List Nat) (memLimit : Nat)
    (info : VideoSampleInfo) (buf : GoSlice) (hml : memLimit < 4294967296) :
    (memLimit < info.size →
      readMdatAtSample stream memLimit info buf =
        (.error (.capacityOver info.size memLimit), false, [])) ∧
    (info.size ≤ memLimit →
      (0 ≤ info.offset →
        (readMdatAtSample stream memLimit info buf).2.1 =
          decide (buf.cap % 4294967296 < info.size)) ∧
      (∀ s, (readMdatAtSample stream memLimit info buf).1 = .ok s →
        s.cap = (if buf.cap % 4294967296 < info.size then info.size
          else buf.cap) ∧
        s.data.length = info.size ∧
        s.data = (stream.drop info.offset.toNat).take info.size) ∧
      ((∃ s, (readMdatAtSample stream memLimit info buf).1 = .ok s) ↔
        0 ≤ info.offset ∧
        info.size ≤ (stream.drop info.offset.toNat).length)) := by
  have hml' : memLimit % 4294967296 = memLimit := Nat.mod_eq_of_lt hml
  constructor
  · intro hgt
    rw [readMdatAtSample, hml', if_pos hgt]
  · intro hle
    rw [readMdatAtSample, hml', if_neg (by omega)]
    by_cases hoff : info.offset < 0
    · rw [if_pos hoff]
      refine ⟨?_, ?_, ?_⟩
      · intro h0
        omega
      · intro s hs
        exact absurd hs (by simp)
      · constructor
        · rintro ⟨s, hs⟩
          exact absurd hs (by simp)
        · rintro ⟨h0, -⟩
          omega
    · rw [if_neg hoff]
      by_cases hlen : ((stream.drop info.offset.toNat).take info.size).length
          = info.size
      · rw [if_pos hlen]
        refine ⟨?_, ?_, ?_⟩
        · intro h0
          rfl
        · intro s hs
          simp only [Except.ok.injEq] at hs
          subst hs
          refine ⟨?_, hlen, rfl⟩
          by_cases hcap : buf.cap % 4294967296 < info.size
          · simp [hcap]
          · simp [hcap]
        · rw [List.length_take, min_eq_left_iff] at hlen
          constructor
          · intro hx
            exact ⟨by omega, hlen⟩
          · intro hx
            exact ⟨_, rfl⟩
      · rw [if_neg hlen]
        rw [List.length_take, min_eq_left_iff] at hlen
        refine ⟨?_, ?_, ?_⟩
        · intro h0
          rfl
        · intro s hs
          exact absurd hs (by simp)
        · constructor
          · rintro ⟨s, hs⟩
            exact absurd hs (by simp)
          · rintro ⟨h0, hsz⟩
            exact absurd hsz hlen

/-- Instance of `readMdatAtSample_spec`: capacity failure at size 5
against limit 4 without touching the stream, fresh allocation when a
2-byte buffer receives a 3-byte sample, and success iff the stream holds
the requested range. -/
theorem readMdatAtSample_spec_witness :
    readMdatAtSample [9] 4 ⟨0, 5, 0, 0, 0, 0⟩ ⟨2, []⟩ =
      (Except.error (Mp4Error.capacityOver 5 4), false, []) ∧
    (readMdatAtSample [1, 2, 3, 4, 5] 4194304 ⟨1, 3, 0, 0, 0, 0⟩
        ⟨2, []⟩).2.1 = decide ((2 : Nat) % 4294967296 < 3) ∧
    ((∃ s, (readMdatAtSample [1, 2, 3, 4, 5] 4194304 ⟨1, 3, 0, 0, 0, 0⟩
        ⟨2, []⟩).1 = Except.ok s) ↔
      (0 : Int) ≤ 1 ∧
        3 ≤ (([1, 2, 3, 4, 5] : List Nat).drop ((1 : Int)).toNat).length) := by
  refine ⟨?_, ?_, ?_⟩
  · exact (readMdatAtSample_spec [9] 4 ⟨0, 5, 0, 0, 0, 0⟩ ⟨2, []⟩
      (by decide)).1 (by decide)
  · exact ((readMdatAtSample_spec [1, 2, 3, 4, 5] 4194304 ⟨1, 3, 0, 0, 0, 0⟩
      ⟨2, []⟩ (by decide)).2 (by decide)).1 (by decide)
  · exact ((readMdatAtSample_spec [1, 2, 3, 4, 5] 4194304 ⟨1, 3, 0, 0, 0, 0⟩
      ⟨2, []⟩ (by decide)).2 (by decide)).2.2

end Mp4Read
